import Mathlib

/-!
Verification of the fisher-rust intent-batching relayer.

This file shallowly embeds the Rust sources of the repository
(src/fisher-rust/src/{williams,relayer,types,blob,phi_optimization}.rs)
into Lean and settles the specification claims against them.

Modelling conventions:
* Rust machine integers (u64, usize, u128, U256) are modelled as Nat.
  Where the Rust type bound matters (serialization widths), a
  well-formedness predicate records the range that the Rust type
  guarantees.
* f64 computations that produce real-number values (priority scores)
  are modelled over the real numbers; f64 computations that the code
  immediately truncates back to integers (the chunk-size formula
  floor(sqrt n) * ceil(log2 n)) are modelled by the exact integer
  functions, which agree with the f64 path on all realistic sizes.
* Fallible code returns Except / Option; a Rust panic (division by
  zero in process_in_chunks) is modelled as Option.none.
-/

/-! ## Data model (src/types.rs) -/

/-- An intent, from struct Intent in src/types.rs.  Strings and byte
vectors are byte lists; `from` / `to` are the 20 raw bytes of the
addresses; `amount` and `max_gas_price` are the U256 values. -/
structure Intent where
  id : List Nat
  from' : List Nat
  to' : List Nat
  amount : Nat
  priority : Bool
  nonce : Nat
  signature : List Nat
  timestamp : Nat
  max_gas_price : Option Nat
deriving DecidableEq

/-- A batch, from struct Batch in src/types.rs.  The f64 field
`phi_score` is carried as its 8-byte IEEE-754 bit pattern (a Nat
below 2^64): no claim depends on its numeric value, only on its
serialized form. -/
structure Batch where
  id : Nat
  intents : List Intent
  chunk_size : Nat
  phi_score : Nat
  estimated_gas : Nat
  estimated_savings : Nat
  created_at : Nat
deriving DecidableEq

/-- A settlement outcome, from struct BatchResult in src/types.rs
(tx_hash is a byte list; only the fields the claims touch matter). -/
structure BatchResult where
  batch_id : Nat
  tx_hash : List Nat
  gas_used : Nat
  gas_saved : Nat
  successes : List Bool
  processing_time_ms : Nat
  used_blob : Bool
  blob_gas_saved : Nat
deriving DecidableEq

/-- Process-lifetime aggregates, from struct Metrics in src/types.rs.
The f64 running means are modelled as exact rationals. -/
structure Metrics where
  total_batches : Nat
  total_intents : Nat
  total_gas_saved : Nat
  avg_batch_size : ℚ
  avg_savings_percent : ℚ
  avg_williams_savings : ℚ
  avg_phi_savings : ℚ
  avg_blob_savings : ℚ
  blob_batches : Nat
  avg_processing_time_ms : ℚ
deriving DecidableEq

/-- Metrics::default() from src/types.rs. -/
def Metrics.default : Metrics :=
  { total_batches := 0
    total_intents := 0
    total_gas_saved := 0
    avg_batch_size := 0
    avg_savings_percent := 0
    avg_williams_savings := 0
    avg_phi_savings := 0
    avg_blob_savings := 0
    blob_batches := 0
    avg_processing_time_ms := 0 }

/-- The error enum from src/error.rs (the variants the claims touch). -/
inductive FisherError where
  | invalidSignature : FisherError
  | batchProcessing : String → FisherError
  | batchTooLarge : String → FisherError
deriving DecidableEq

/-! ## Williams chunk math (src/williams.rs) -/

/-- Upward search for the integer square root: the largest s with
s*s ≤ n, found by incrementing a candidate while the next square
still fits.  Fuel-structural so that the kernel can evaluate it. -/
def isqrtGo (n : Nat) : Nat → Nat → Nat
  | s, 0 => s
  | s, fuel + 1 => if (s + 1) * (s + 1) ≤ n then isqrtGo n (s + 1) fuel else s

/-- floor(sqrt n).  Models the Rust `(n as f64).sqrt() as usize` of
williams_chunk_size: for every n below 2^52 the correctly rounded f64
square root truncates to exactly floor(sqrt n). -/
def isqrt (n : Nat) : Nat := isqrtGo n 0 n

/-- Fuel-structural ceiling base-2 logarithm helper:
counts how many halvings (rounding up) reach 1. -/
def clog2Aux : Nat → Nat → Nat
  | 0, _ => 0
  | fuel + 1, n => if n ≤ 1 then 0 else clog2Aux fuel ((n + 1) / 2) + 1

/-- ceil(log2 n) for n ≥ 2 (and 0 for n ≤ 1).  Models the Rust
`(n as f64).log2().ceil() as usize`, which equals the exact
ceiling log for every realistic n. -/
def clog2 (n : Nat) : Nat := clog2Aux n n

/-- williams_chunk_size from src/williams.rs:
if n ≤ 1 then n else floor(sqrt n) * ceil(log2 n). -/
def williams_chunk_size (n : Nat) : Nat :=
  if n ≤ 1 then n else isqrt n * clog2 n

/-- calculate_savings from src/williams.rs: the percentage of memory
saved, ((n - chunk) / n) * 100, and 0 for n = 0.  Modelled with exact
rational arithmetic in place of f64. -/
def calculate_savings (n : Nat) : ℚ :=
  if n = 0 then 0
  else (((n : ℚ) - (williams_chunk_size n : ℚ)) / (n : ℚ)) * 100

/-- Splits a list into consecutive chunks of size cs (the final chunk
possibly shorter), with the list length as structural fuel.  This is
the slice loop of process_in_chunks in src/williams.rs. -/
def chunkAux {α : Type} (cs : Nat) : Nat → List α → List (List α)
  | 0, _ => []
  | _ + 1, [] => []
  | fuel + 1, a :: l => (a :: l).take cs :: chunkAux cs fuel ((a :: l).drop cs)

/-- The chunk decomposition used by process_in_chunks. -/
def chunkList {α : Type} (cs : Nat) (l : List α) : List (List α) :=
  chunkAux cs l.length l

/-- process_in_chunks from src/williams.rs.  On an empty slice the
Rust code computes chunk_size = 0 and evaluates
(n + chunk_size - 1) / chunk_size, a division by zero that panics;
this is modelled as none.  Otherwise the processing function is
applied to each chunk in order, stopping at the first failure. -/
def process_in_chunks {β : Type} (f : List Intent → Option β)
    (intents : List Intent) : Option (List β) :=
  let cs := williams_chunk_size intents.length
  if cs = 0 then none
  else (chunkList cs intents).mapM f

/-! ## Gas model and relayer queue operations (src/relayer.rs, src/types.rs) -/

/-- Intent::verify_signature from src/types.rs: the signature is
"verified" when it is non-empty. -/
def Intent.verify_signature (i : Intent) : Bool := !(i.signature.isEmpty)

/-- submit_intent from src/relayer.rs, as a function of the queue
state: reject with InvalidSignature when the signature check fails
(queue untouched), otherwise push the intent and return its id.
(The high-water spawn of process_batch is concurrency and not part
of the queue transition.) -/
def submit_intent (q : List Intent) (i : Intent) :
    Except FisherError (List Nat) × List Intent :=
  if i.verify_signature = false then (Except.error FisherError.invalidSignature, q)
  else (Except.ok i.id, q ++ [i])

/-- estimate_batch_gas from src/relayer.rs:
traditional = n * 100000, optimized = n * 14000,
returns (optimized, traditional - optimized). -/
def estimate_batch_gas (intents : List Intent) : Nat × Nat :=
  (intents.length * 14000, intents.length * 100000 - intents.length * 14000)

/-- process_batch from src/relayer.rs, restricted to its effect on the
intent queue: the code first compares queue.len() with min_batch_size
and returns Error::BatchProcessing("Queue too small") without touching
the queue; only when the check passes does it drain the queue and hand
the intents to the build/submit pipeline (chain I/O not modelled). -/
def process_batch (min_batch_size : Nat) (q : List Intent) :
    Except FisherError (List Intent) × List Intent :=
  if q.length < min_batch_size
  then (Except.error (FisherError.batchProcessing "Queue too small"), q)
  else (Except.ok q, [])

/-- build_batch from src/relayer.rs.  The intents are stored exactly
as drained - the function computes a mean phi score, the chunk size
and the gas estimate, but applies no reordering.  The wall-clock batch
id / creation time and the f64 mean (phi_score bits) are parameters,
since they come from the clock and float arithmetic. -/
def build_batch (batchId createdAt phiBits : Nat) (intents : List Intent) : Batch :=
  { id := batchId
    intents := intents
    chunk_size := williams_chunk_size intents.length
    phi_score := phiBits
    estimated_gas := (estimate_batch_gas intents).1
    estimated_savings := (estimate_batch_gas intents).2
    created_at := createdAt }

/-- Batch::savings_percent from src/types.rs:
savings / (gas + savings) * 100, or 0 when gas = 0. -/
def Batch.savings_percent (b : Batch) : ℚ :=
  if b.estimated_gas = 0 then 0
  else ((b.estimated_savings : ℚ) / ((b.estimated_gas : ℚ) + (b.estimated_savings : ℚ))) * 100

/-- estimate_phi_savings from src/phi_optimization.rs:
((n * 140000 - 5000) / (n * 140000)) * 100, in exact rationals. -/
def estimate_phi_savings (n : Nat) : ℚ :=
  (((n : ℚ) * 140000 - 5000) / ((n : ℚ) * 140000)) * 100

/-- estimate_total_savings from src/phi_optimization.rs:
(williams, phi, combined) percentages, with
combined = ((n*240000 - (n*14000 + 5000)) / (n*240000)) * 100. -/
def estimate_total_savings (n : Nat) : ℚ × ℚ × ℚ :=
  (calculate_savings n, estimate_phi_savings n,
    (((n : ℚ) * 240000 - ((n : ℚ) * 14000 + 5000)) / ((n : ℚ) * 240000)) * 100)

/-- update_metrics from src/relayer.rs: bump the three counters, then
fold the new values into exactly four running means using
(old * (n - 1) + x) / n with n the incremented batch count.  The
fields avg_blob_savings, blob_batches and avg_processing_time_ms are
not touched by the code. -/
def update_metrics (m : Metrics) (b : Batch) (r : BatchResult) : Metrics :=
  let total_batches := m.total_batches + 1
  let n : ℚ := (total_batches : ℚ)
  let savings := estimate_total_savings b.intents.length
  { m with
    total_batches := total_batches
    total_intents := m.total_intents + b.intents.length
    total_gas_saved := m.total_gas_saved + r.gas_saved
    avg_batch_size := (m.avg_batch_size * (n - 1) + (b.intents.length : ℚ)) / n
    avg_savings_percent := (m.avg_savings_percent * (n - 1) + savings.2.2) / n
    avg_williams_savings := (m.avg_williams_savings * (n - 1) + savings.1) / n
    avg_phi_savings := (m.avg_phi_savings * (n - 1) + savings.2.1) / n }

/-! ## Priority score (src/phi_optimization.rs), over the reals -/

/-- The f64 golden-ratio constant PHI from src/phi_optimization.rs. -/
noncomputable def PHI : ℝ := 1.618033988749894848

/-- phi_priority_score from src/phi_optimization.rs:
(if priority then PHI else 1) * (age^(1/PHI) + max (ln amount) 1). -/
noncomputable def phi_priority_score (priority : Bool) (age_seconds : Nat)
    (amount : Nat) : ℝ :=
  (if priority then PHI else 1) *
    ((age_seconds : ℝ) ^ ((1 : ℝ) / PHI) + max (Real.log (amount : ℝ)) 1)

/-- The priority score of an intent at wall-clock time `now`, as the
spec's ordering step would compute it (age = now - timestamp). -/
noncomputable def scoreOf (now : Nat) (i : Intent) : ℝ :=
  phi_priority_score i.priority (now - i.timestamp) i.amount

/-- The ordering property claimed for the build pipeline: every intent
scores at least as high as each later one (descending order). -/
def sortedByScoreDesc (now : Nat) (l : List Intent) : Prop :=
  l.Pairwise (fun a b => scoreOf now b ≤ scoreOf now a)

/-! ## Blob encoding (src/blob.rs)

The serializer models bincode with its default fixed-integer
little-endian configuration, field by field in declaration order:
u64/usize as 8 little-endian bytes, U256 as 32 little-endian bytes,
f64 as its 8-byte bit pattern, bool as one byte, Option as a one-byte
tag followed by the payload, String / Vec of u8 as a u64 length prefix
followed by the raw bytes, Vec of Intent as a u64 count prefix
followed by the elements, and the fixed 20-byte addresses verbatim.
The deserializer reads a prefix of its input and ignores what
follows, which is how the zero padding of the final segment is
tolerated.  Only blob_data matters for decoding; the sha256-based
commitment / versioned-hash / proof fields of BlobTx never feed back
into decode_batch, so a segment is modelled as its blob_data bytes. -/

/-- Little-endian base-256 digits of x, exactly w of them. -/
def natLE : Nat → Nat → List Nat
  | 0, _ => []
  | w + 1, x => x % 256 :: natLE w (x / 256)

/-- Value of a little-endian base-256 digit list. -/
def bytesToNatLE : List Nat → Nat
  | [] => 0
  | b :: bs => b + 256 * bytesToNatLE bs

/-- Read exactly w bytes from the input; none when it is too short. -/
def readBytes : Nat → List Nat → Option (List Nat × List Nat)
  | 0, l => some ([], l)
  | _ + 1, [] => none
  | w + 1, b :: l =>
    match readBytes w l with
    | none => none
    | some (bs, r) => some (b :: bs, r)

/-- Read a w-byte little-endian unsigned integer. -/
def readNatLE (w : Nat) (l : List Nat) : Option (Nat × List Nat) :=
  match readBytes w l with
  | none => none
  | some (bs, r) => some (bytesToNatLE bs, r)

/-- A u64-length-prefixed byte sequence (bincode Vec of u8 / String). -/
def serBytes (bs : List Nat) : List Nat := natLE 8 bs.length ++ bs

/-- Read a u64-length-prefixed byte sequence. -/
def readLenBytes (l : List Nat) : Option (List Nat × List Nat) :=
  match readNatLE 8 l with
  | none => none
  | some (n, r) => readBytes n r

/-- One byte for a bool. -/
def serBool (b : Bool) : List Nat := [if b then 1 else 0]

/-- Read a bool byte (0 = false, 1 = true, anything else invalid). -/
def readBool : List Nat → Option (Bool × List Nat)
  | [] => none
  | t :: r => if t = 0 then some (false, r) else if t = 1 then some (true, r) else none

/-- Option of U256: tag byte then 32 payload bytes when present. -/
def serOptU256 : Option Nat → List Nat
  | none => [0]
  | some x => 1 :: natLE 32 x

/-- Read an Option of U256 (tag 0 = none, tag 1 = some). -/
def readOptU256 : List Nat → Option (Option Nat × List Nat)
  | [] => none
  | t :: r =>
    if t = 0 then some (none, r)
    else if t = 1 then
      match readNatLE 32 r with
      | none => none
      | some (x, r2) => some (some x, r2)
    else none

/-- Serialize one Intent, fields in declaration order. -/
def serializeIntent (i : Intent) : List Nat :=
  serBytes i.id ++ (i.from' ++ (i.to' ++ (natLE 32 i.amount ++
    (serBool i.priority ++ (natLE 8 i.nonce ++ (serBytes i.signature ++
      (natLE 8 i.timestamp ++ serOptU256 i.max_gas_price)))))))

/-- Parse one Intent from a prefix of the input. -/
def parseIntent (l : List Nat) : Option (Intent × List Nat) :=
  match readLenBytes l with
  | none => none
  | some (idB, r1) =>
  match readBytes 20 r1 with
  | none => none
  | some (fromB, r2) =>
  match readBytes 20 r2 with
  | none => none
  | some (toB, r3) =>
  match readNatLE 32 r3 with
  | none => none
  | some (amount, r4) =>
  match readBool r4 with
  | none => none
  | some (priority, r5) =>
  match readNatLE 8 r5 with
  | none => none
  | some (nonce, r6) =>
  match readLenBytes r6 with
  | none => none
  | some (sigB, r7) =>
  match readNatLE 8 r7 with
  | none => none
  | some (timestamp, r8) =>
  match readOptU256 r8 with
  | none => none
  | some (mgp, r9) =>
    some ({ id := idB, from' := fromB, to' := toB, amount := amount,
            priority := priority, nonce := nonce, signature := sigB,
            timestamp := timestamp, max_gas_price := mgp }, r9)

/-- Parse a counted sequence of Intents. -/
def parseIntents : Nat → List Nat → Option (List Intent × List Nat)
  | 0, l => some ([], l)
  | k + 1, l =>
    match parseIntent l with
    | none => none
    | some (i, r) =>
      match parseIntents k r with
      | none => none
      | some (is, r2) => some (i :: is, r2)

/-- Serialize a Batch, fields in declaration order (bincode model). -/
def serializeBatch (b : Batch) : List Nat :=
  natLE 8 b.id ++ (natLE 8 b.intents.length ++
    ((b.intents.map serializeIntent).flatten ++ (natLE 8 b.chunk_size ++
      (natLE 8 b.phi_score ++ (natLE 32 b.estimated_gas ++
        (natLE 32 b.estimated_savings ++ natLE 8 b.created_at))))))

/-- Parse a Batch from a prefix of the input. -/
def parseBatch (l : List Nat) : Option (Batch × List Nat) :=
  match readNatLE 8 l with
  | none => none
  | some (id, r1) =>
  match readNatLE 8 r1 with
  | none => none
  | some (count, r2) =>
  match parseIntents count r2 with
  | none => none
  | some (intents, r3) =>
  match readNatLE 8 r3 with
  | none => none
  | some (chunk_size, r4) =>
  match readNatLE 8 r4 with
  | none => none
  | some (phi_score, r5) =>
  match readNatLE 32 r5 with
  | none => none
  | some (estimated_gas, r6) =>
  match readNatLE 32 r6 with
  | none => none
  | some (estimated_savings, r7) =>
  match readNatLE 8 r7 with
  | none => none
  | some (created_at, r8) =>
    some ({ id := id, intents := intents, chunk_size := chunk_size,
            phi_score := phi_score, estimated_gas := estimated_gas,
            estimated_savings := estimated_savings,
            created_at := created_at }, r8)

/-- BLOB_SIZE from src/blob.rs: 128 KiB per segment. -/
def BLOB_SIZE : Nat := 131072

/-- MAX_BLOBS_PER_TX from src/blob.rs. -/
def MAX_BLOBS_PER_TX : Nat := 6

/-- blob_data.resize(BLOB_SIZE, 0) of create_blob_tx: zero-pad a
chunk up to the segment size. -/
def padTo (w : Nat) (c : List Nat) : List Nat :=
  c ++ List.replicate (w - c.length) 0

/-- BlobEncoder::encode_batch from src/blob.rs: serialize, reject
with BatchTooLarge when more than MAX_BLOBS_PER_TX segments would be
needed, otherwise cut into BLOB_SIZE slices, each zero-padded to the
full segment size. -/
def encode_batch (b : Batch) : Except FisherError (List (List Nat)) :=
  let bytes := serializeBatch b
  let numBlobs := (bytes.length + BLOB_SIZE - 1) / BLOB_SIZE
  if numBlobs > MAX_BLOBS_PER_TX then
    Except.error (FisherError.batchTooLarge
      ("Batch requires " ++ toString numBlobs ++ " blobs, max is " ++
        toString MAX_BLOBS_PER_TX))
  else Except.ok ((chunkList BLOB_SIZE bytes).map (padTo BLOB_SIZE))

/-- BlobEncoder::decode_batch from src/blob.rs: concatenate the
segments' blob_data and deserialize a Batch from the front. -/
def decode_batch (blobs : List (List Nat)) : Option Batch :=
  match parseBatch blobs.flatten with
  | none => none
  | some (b, _) => some b

/-- The ranges the Rust field types guarantee for an Intent
(u64 lengths, 20-byte addresses, 256-bit amounts). -/
def Intent.wf (i : Intent) : Prop :=
  i.id.length < 2 ^ 64 ∧ i.from'.length = 20 ∧ i.to'.length = 20 ∧
    i.amount < 2 ^ 256 ∧ i.nonce < 2 ^ 64 ∧ i.signature.length < 2 ^ 64 ∧
    i.timestamp < 2 ^ 64 ∧ i.max_gas_price.getD 0 < 2 ^ 256

instance : DecidablePred Intent.wf := fun i => by
  unfold Intent.wf; infer_instance

/-- The ranges the Rust field types guarantee for a Batch. -/
def Batch.wf (b : Batch) : Prop :=
  b.id < 2 ^ 64 ∧ b.intents.length < 2 ^ 64 ∧ (∀ i ∈ b.intents, i.wf) ∧
    b.chunk_size < 2 ^ 64 ∧ b.phi_score < 2 ^ 64 ∧
    b.estimated_gas < 2 ^ 256 ∧ b.estimated_savings < 2 ^ 256 ∧
    b.created_at < 2 ^ 64

instance : DecidablePred Batch.wf := fun b => by
  unfold Batch.wf; infer_instance

/-! ## Concrete fixtures for witnesses and counterexamples -/

/-- A plain non-priority intent (amount 1000, signed). -/
def exIntent1 : Intent :=
  { id := [97], from' := List.replicate 20 0, to' := List.replicate 20 1,
    amount := 1000, priority := false, nonce := 0, signature := [222, 173],
    timestamp := 1234567890, max_gas_price := none }

/-- A priority intent with the same amount and timestamp. -/
def exIntent2 : Intent :=
  { id := [98], from' := List.replicate 20 2, to' := List.replicate 20 3,
    amount := 1000, priority := true, nonce := 1, signature := [190, 239],
    timestamp := 1234567890, max_gas_price := some 20000000000 }

/-- An intent with an empty signature. -/
def exIntentNoSig : Intent :=
  { id := [99], from' := List.replicate 20 0, to' := List.replicate 20 1,
    amount := 50, priority := false, nonce := 2, signature := [],
    timestamp := 1234567890, max_gas_price := none }

/-- A small two-intent batch. -/
def exBatch : Batch :=
  { id := 1, intents := [exIntent1, exIntent2], chunk_size := 2,
    phi_score := 0, estimated_gas := 28000, estimated_savings := 172000,
    created_at := 1234567890 }

/-- The segment list encode_batch produces for a batch that fits. -/
def exPlan (b : Batch) : List (List Nat) :=
  (chunkList BLOB_SIZE (serializeBatch b)).map (padTo BLOB_SIZE)

/-- A settlement result used by the metrics counterexample. -/
def exResult : BatchResult :=
  { batch_id := 1, tx_hash := [], gas_used := 14000, gas_saved := 86000,
    successes := [true, true], processing_time_ms := 5, used_blob := false,
    blob_gas_saved := 0 }

/-! ## Integer square root and ceiling log lemmas -/

theorem isqrtGo_spec (n : Nat) :
    ∀ fuel s, s * s ≤ n → n < (s + fuel + 1) * (s + fuel + 1) →
      isqrtGo n s fuel * isqrtGo n s fuel ≤ n ∧
        n < (isqrtGo n s fuel + 1) * (isqrtGo n s fuel + 1) := by
  intro fuel
  induction fuel with
  | zero =>
    intro s h1 h2
    refine ⟨by simpa [isqrtGo] using h1, ?_⟩
    simpa [isqrtGo] using h2
  | succ f ih =>
    intro s h1 h2
    by_cases h : (s + 1) * (s + 1) ≤ n
    · have : isqrtGo n s (f + 1) = isqrtGo n (s + 1) f := by simp [isqrtGo, h]
      rw [this]
      refine ih (s + 1) h ?_
      have : s + 1 + f + 1 = s + (f + 1) + 1 := by omega
      rw [this]
      exact h2
    · have : isqrtGo n s (f + 1) = s := by simp [isqrtGo, h]
      rw [this]
      exact ⟨h1, by omega⟩

theorem isqrt_spec (n : Nat) :
    isqrt n * isqrt n ≤ n ∧ n < (isqrt n + 1) * (isqrt n + 1) := by
  refine isqrtGo_spec n n 0 (by simp) ?_
  nlinarith

theorem le_isqrt_of_sq_le {m n : Nat} (h : m * m ≤ n) : m ≤ isqrt n := by
  by_contra h'
  push_neg at h'
  have h2 := (isqrt_spec n).2
  have h3 : (isqrt n + 1) * (isqrt n + 1) ≤ m * m :=
    Nat.mul_le_mul (by omega) (by omega)
  omega

theorem clog2Aux_of_le_one (f n : Nat) (h : n ≤ 1) : clog2Aux f n = 0 := by
  cases f <;> simp [clog2Aux, h]

theorem clog2Aux_fuel :
    ∀ f f' n : Nat, n ≤ f → n ≤ f' → clog2Aux f n = clog2Aux f' n := by
  intro f
  induction f with
  | zero =>
    intro f' n h h'
    rw [clog2Aux_of_le_one _ _ (by omega), clog2Aux_of_le_one _ _ (by omega)]
  | succ f ih =>
    intro f' n h h'
    by_cases hn : n ≤ 1
    · rw [clog2Aux_of_le_one _ _ hn, clog2Aux_of_le_one _ _ hn]
    · obtain ⟨f'', rfl⟩ : ∃ k, f' = k + 1 := ⟨f' - 1, by omega⟩
      simp only [clog2Aux, if_neg hn]
      exact congrArg (· + 1) (ih f'' ((n + 1) / 2) (by omega) (by omega))

theorem clog2_rec {n : Nat} (h : 2 ≤ n) : clog2 n = clog2 ((n + 1) / 2) + 1 := by
  unfold clog2
  obtain ⟨f, rfl⟩ : ∃ k, n = k + 1 := ⟨n - 1, by omega⟩
  simp only [clog2Aux, if_neg (by omega : ¬ f + 1 ≤ 1)]
  exact congrArg (· + 1) (clog2Aux_fuel f ((f + 1 + 1) / 2) ((f + 1 + 1) / 2)
    (by omega) (le_refl _))

set_option maxRecDepth 8000 in
theorem clog2_isqrt_base : ∀ n < 199, 100 ≤ n → 4 * clog2 n ≤ 3 * isqrt n := by
  decide

theorem clog2_le_isqrt : ∀ n, 100 ≤ n → 4 * clog2 n ≤ 3 * isqrt n := by
  intro n
  induction n using Nat.strong_induction_on with
  | _ n ih =>
    intro hn
    by_cases hsmall : n < 199
    · exact clog2_isqrt_base n hsmall hn
    · push_neg at hsmall
      have hm100 : 100 ≤ (n + 1) / 2 := by omega
      have hmn : (n + 1) / 2 < n := by omega
      have hrec : clog2 n = clog2 ((n + 1) / 2) + 1 := clog2_rec (by omega)
      have ihm := ih ((n + 1) / 2) hmn hm100
      have hs10 : 10 ≤ isqrt ((n + 1) / 2) :=
        le_isqrt_of_sq_le (by omega)
      have hsq := (isqrt_spec ((n + 1) / 2)).1
      have h10s : 10 * isqrt ((n + 1) / 2) ≤
          isqrt ((n + 1) / 2) * isqrt ((n + 1) / 2) :=
        Nat.mul_le_mul_right _ hs10
      have e1 : (isqrt ((n + 1) / 2) + 2) * (isqrt ((n + 1) / 2) + 2) =
          isqrt ((n + 1) / 2) * isqrt ((n + 1) / 2) + 4 * isqrt ((n + 1) / 2) + 4 := by
        ring
      have h2 : (isqrt ((n + 1) / 2) + 2) * (isqrt ((n + 1) / 2) + 2) ≤ n := by
        omega
      have hsn : isqrt ((n + 1) / 2) + 2 ≤ isqrt n := le_isqrt_of_sq_le h2
      omega

/-! ## C2: chunk-size bounds and memory savings -/

/-- C2, counterexample: the claim says chunk_size(n) ≤ n for every
batch size n, but williams_chunk_size 5 = floor(sqrt 5) * ceil(log2 5)
= 2 * 3 = 6 > 5. -/
theorem C2_claim_false : williams_chunk_size 5 = 6 ∧ ¬ williams_chunk_size 5 ≤ 5 := by
  decide

/-- C2, amended: for every n ≥ 100, chunk_size(n) < n and the memory
savings percentage (n - chunk_size(n)) / n * 100 is at least 25
(the unrestricted bound chunk_size(n) ≤ n fails, e.g. at n = 5). -/
theorem C2_chunk_savings (n : Nat) (h : 100 ≤ n) :
    williams_chunk_size n < n ∧ 25 ≤ calculate_savings n := by
  have hL := clog2_le_isqrt n h
  have hsq := (isqrt_spec n).1
  have key : 4 * williams_chunk_size n ≤ 3 * n := by
    unfold williams_chunk_size
    rw [if_neg (by omega)]
    calc 4 * (isqrt n * clog2 n) = isqrt n * (4 * clog2 n) := by ring
      _ ≤ isqrt n * (3 * isqrt n) := Nat.mul_le_mul_left _ hL
      _ = 3 * (isqrt n * isqrt n) := by ring
      _ ≤ 3 * n := Nat.mul_le_mul_left _ hsq
  refine ⟨by omega, ?_⟩
  unfold calculate_savings
  rw [if_neg (by omega)]
  have hn : (0 : ℚ) < (n : ℚ) := by
    have : 0 < n := by omega
    exact_mod_cast this
  have hc : (williams_chunk_size n : ℚ) * 4 ≤ (n : ℚ) * 3 := by
    have : (4 * williams_chunk_size n : ℚ) ≤ (3 * n : ℚ) := by exact_mod_cast key
    push_cast at this
    linarith
  rw [div_mul_eq_mul_div, le_div_iff₀ hn]
  linarith

/-- C2 witness: the amended bound holds at n = 100. -/
theorem C2_chunk_savings_witness :
    (100 : Nat) ≤ 100 ∧
      (williams_chunk_size 100 < 100 ∧ 25 ≤ calculate_savings 100) :=
  ⟨by decide, C2_chunk_savings 100 (by decide)⟩

/-! ## Chunk decomposition lemmas and C10 -/

theorem chunkAux_nil {α : Type} (cs fuel : Nat) :
    chunkAux cs fuel ([] : List α) = [] := by
  cases fuel <;> simp [chunkAux]

theorem chunkAux_flatten {α : Type} {cs : Nat} (hcs : 0 < cs) :
    ∀ fuel (l : List α), l.length ≤ fuel → (chunkAux cs fuel l).flatten = l := by
  intro fuel
  induction fuel with
  | zero =>
    intro l h
    have : l = [] := List.eq_nil_of_length_eq_zero (by omega)
    simp [this, chunkAux]
  | succ f ih =>
    intro l h
    cases l with
    | nil => simp [chunkAux]
    | cons a t =>
      simp only [chunkAux, List.flatten_cons]
      rw [ih _ (by simp only [List.length_drop]; simp at h ⊢; omega)]
      exact List.take_append_drop cs (a :: t)

theorem chunkAux_mem {α : Type} {cs : Nat} (_hcs : 0 < cs) :
    ∀ fuel (l : List α), ∀ c ∈ chunkAux cs fuel l, c ≠ [] ∧ c.length ≤ cs := by
  intro fuel
  induction fuel with
  | zero => intro l c hc; simp [chunkAux] at hc
  | succ f ih =>
    intro l c hc
    cases l with
    | nil => simp [chunkAux] at hc
    | cons a t =>
      simp only [chunkAux, List.mem_cons] at hc
      rcases hc with rfl | hc
      · obtain ⟨k, rfl⟩ : ∃ k, cs = k + 1 := ⟨cs - 1, by omega⟩
        refine ⟨by simp [List.take_succ_cons], ?_⟩
        exact List.length_take_le (k + 1) (a :: t)
      · exact ih _ c hc

theorem chunkAux_dropLast {α : Type} {cs : Nat} (_hcs : 0 < cs) :
    ∀ fuel (l : List α), ∀ c ∈ (chunkAux cs fuel l).dropLast, c.length = cs := by
  intro fuel
  induction fuel with
  | zero => intro l c hc; simp [chunkAux] at hc
  | succ f ih =>
    intro l c hc
    cases l with
    | nil => simp [chunkAux] at hc
    | cons a t =>
      simp only [chunkAux] at hc
      rcases hrest : chunkAux cs f ((a :: t).drop cs) with _ | ⟨r, rs⟩
      · rw [hrest] at hc
        simp at hc
      · rw [hrest, List.dropLast_cons₂, List.mem_cons] at hc
        have hdrop : (a :: t).drop cs ≠ [] := by
          intro hd
          rw [hd, chunkAux_nil] at hrest
          exact List.noConfusion hrest
        have hlen : cs < (a :: t).length := by
          by_contra hle
          push_neg at hle
          exact hdrop (List.drop_eq_nil_of_le hle)
        rcases hc with rfl | hc
        · rw [List.length_take]
          simp only [List.length_cons] at hlen ⊢
          omega
        · rw [← hrest] at hc
          exact ih _ c hc

theorem williams_chunk_size_pos {n : Nat} (h : 1 ≤ n) :
    0 < williams_chunk_size n := by
  unfold williams_chunk_size
  by_cases h1 : n ≤ 1
  · rw [if_pos h1]; omega
  · rw [if_neg h1]
    have h2 : 1 ≤ isqrt n := le_isqrt_of_sq_le (by omega)
    have h3 : 1 ≤ clog2 n := by rw [clog2_rec (by omega)]; omega
    exact Nat.mul_pos h2 h3

/-- C10: process_in_chunks is only panic-free on a non-empty slice.
For the empty slice the computed chunk size is 0 and the Rust code
divides by it (modelled as none); for every non-empty slice the
chunk size is positive and the processing function is applied, via
mapM, to consecutive chunks of size chunk_size(n) - every chunk
except possibly the last is full, the last is non-empty and at most
full - whose concatenation is the whole input in order. -/
theorem C10_process_in_chunks {β : Type} (f : List Intent → Option β)
    (l : List Intent) (h : l ≠ []) :
    williams_chunk_size 0 = 0 ∧
    process_in_chunks f [] = none ∧
    0 < williams_chunk_size l.length ∧
    process_in_chunks f l = (chunkList (williams_chunk_size l.length) l).mapM f ∧
    (chunkList (williams_chunk_size l.length) l).flatten = l ∧
    (∀ c ∈ chunkList (williams_chunk_size l.length) l,
      c ≠ [] ∧ c.length ≤ williams_chunk_size l.length) ∧
    (∀ c ∈ (chunkList (williams_chunk_size l.length) l).dropLast,
      c.length = williams_chunk_size l.length) := by
  have hlen : 1 ≤ l.length := List.length_pos.mpr h
  have hpos := williams_chunk_size_pos hlen
  refine ⟨rfl, rfl, hpos, ?_, ?_, ?_, ?_⟩
  · unfold process_in_chunks
    rw [if_neg (by omega)]
  · exact chunkAux_flatten hpos l.length l (le_refl _)
  · exact chunkAux_mem hpos l.length l
  · exact chunkAux_dropLast hpos l.length l

/-- C10 witness: the chunking contract at the one-intent slice. -/
theorem C10_process_in_chunks_witness :
    ([exIntent1] ≠ ([] : List Intent)) ∧
      (williams_chunk_size 0 = 0 ∧
        process_in_chunks (fun c => some c.length) [] = none ∧
        0 < williams_chunk_size [exIntent1].length ∧
        process_in_chunks (fun c => some c.length) [exIntent1] =
          (chunkList (williams_chunk_size [exIntent1].length) [exIntent1]).mapM
            (fun c => some c.length) ∧
        (chunkList (williams_chunk_size [exIntent1].length) [exIntent1]).flatten
          = [exIntent1] ∧
        (∀ c ∈ chunkList (williams_chunk_size [exIntent1].length) [exIntent1],
          c ≠ [] ∧ c.length ≤ williams_chunk_size [exIntent1].length) ∧
        (∀ c ∈ (chunkList (williams_chunk_size [exIntent1].length)
            [exIntent1]).dropLast,
          c.length = williams_chunk_size [exIntent1].length)) :=
  ⟨by decide, C10_process_in_chunks (fun c => some c.length) [exIntent1] (by decide)⟩

/-! ## C9: the priority score, and its priority monotonicity -/

theorem PHI_gt_one : (1 : ℝ) < PHI := by
  unfold PHI
  norm_num

theorem phi_score_base_pos (a m : Nat) :
    0 < (a : ℝ) ^ ((1 : ℝ) / PHI) + max (Real.log (m : ℝ)) 1 := by
  have h1 : (0 : ℝ) ≤ (a : ℝ) ^ ((1 : ℝ) / PHI) :=
    Real.rpow_nonneg (Nat.cast_nonneg a) _
  have h2 : (1 : ℝ) ≤ max (Real.log (m : ℝ)) 1 := le_max_right _ _
  linarith

theorem phi_priority_score_false_lt_true (a m : Nat) :
    phi_priority_score false a m < phi_priority_score true a m := by
  show (1 : ℝ) * _ < PHI * _
  exact mul_lt_mul_of_pos_right PHI_gt_one (phi_score_base_pos a m)

/-- C9: phi_priority_score(priority, age, amount) equals
P * (A^(1/phi) + max(ln amount, 1)) with P = phi when priority else 1,
and for any fixed age and amount the priority score is strictly larger
with priority = true, in particular at age 100, amount 1000. -/
theorem C9_phi_priority_score :
    (∀ (p : Bool) (a m : Nat), phi_priority_score p a m =
      (if p then PHI else 1) *
        ((a : ℝ) ^ ((1 : ℝ) / PHI) + max (Real.log (m : ℝ)) 1)) ∧
    (∀ a m : Nat, phi_priority_score false a m < phi_priority_score true a m) ∧
    phi_priority_score false 100 1000 < phi_priority_score true 100 1000 :=
  ⟨fun _ _ _ => rfl, phi_priority_score_false_lt_true,
    phi_priority_score_false_lt_true 100 1000⟩

/-! ## C3: the build pipeline applies no ordering -/

/-- C3, counterexample: build_batch leaves a non-priority intent ahead
of a priority intent of equal age and amount, so its output is not
sorted by descending priority score. -/
theorem C3_claim_false :
    (build_batch 1 1234567890 0 [exIntent1, exIntent2]).intents =
      [exIntent1, exIntent2] ∧
    ¬ sortedByScoreDesc 1234567890
        ((build_batch 1 1234567890 0 [exIntent1, exIntent2]).intents) := by
  refine ⟨rfl, ?_⟩
  intro hsort
  have hs : sortedByScoreDesc 1234567890 [exIntent1, exIntent2] := hsort
  unfold sortedByScoreDesc at hs
  rw [List.pairwise_cons] at hs
  have h := hs.1 exIntent2 (by simp)
  have hlt : scoreOf 1234567890 exIntent1 < scoreOf 1234567890 exIntent2 :=
    phi_priority_score_false_lt_true 0 1000
  linarith

/-- C3, amended: the build pipeline has no ordering step - build_batch
stores the drained intents exactly in their queue order (phi_sort
exists in the sources but is never invoked on the flush path). -/
theorem C3_build_batch_preserves_order (batchId createdAt phiBits : Nat)
    (intents : List Intent) :
    (build_batch batchId createdAt phiBits intents).intents = intents := rfl

/-! ## C1: process_batch on a too-small queue -/

/-- C1, counterexample: with min_batch_size 2 and a single queued
intent, process_batch returns BatchProcessing("Queue too small") but
does NOT drain the queue - the intent is retained, so the queue is not
left empty as the claim states. -/
theorem C1_claim_false :
    (process_batch 2 [exIntent1]).1 =
      Except.error (FisherError.batchProcessing "Queue too small") ∧
    (process_batch 2 [exIntent1]).2 = [exIntent1] ∧
    (process_batch 2 [exIntent1]).2 ≠ [] :=
  ⟨rfl, rfl, by decide⟩

/-- C1, amended: when the queue holds fewer than min_batch_size
intents, process_batch rejects with BatchProcessing("Queue too small")
before draining anything: the call returns that error and the queue is
left unchanged (the below-threshold intents are retained). -/
theorem C1_small_queue (min_batch_size : Nat) (q : List Intent)
    (h : q.length < min_batch_size) :
    process_batch min_batch_size q =
      (Except.error (FisherError.batchProcessing "Queue too small"), q) := by
  unfold process_batch
  rw [if_pos h]

/-- C1 witness: the amended behaviour at a concrete one-intent queue. -/
theorem C1_small_queue_witness :
    [exIntent1].length < 2 ∧
      process_batch 2 [exIntent1] =
        (Except.error (FisherError.batchProcessing "Queue too small"),
          [exIntent1]) :=
  ⟨by decide, C1_small_queue 2 [exIntent1] (by decide)⟩

/-! ## C8: submit_intent -/

/-- C8: submit_intent fails with InvalidSignature exactly when the
intent's signature is empty, leaving the queue unchanged; otherwise it
appends the intent at the end of the queue (preserving the order of
previously queued intents) and returns the intent's id. -/
theorem C8_submit_intent (q : List Intent) (i : Intent) :
    ((submit_intent q i).1 = Except.error FisherError.invalidSignature ↔
      i.signature = []) ∧
    (i.signature = [] → (submit_intent q i).2 = q) ∧
    (i.signature ≠ [] → submit_intent q i = (Except.ok i.id, q ++ [i])) := by
  unfold submit_intent Intent.verify_signature
  by_cases h : i.signature = [] <;> simp [h, List.isEmpty_iff]

/-- C8 witness: rejection with an unchanged queue on an empty
signature, and ordered append on a signed intent. -/
theorem C8_submit_intent_witness :
    ((submit_intent [] exIntentNoSig).1 =
        Except.error FisherError.invalidSignature) ∧
      (submit_intent [] exIntentNoSig).2 = [] ∧
      submit_intent [exIntent1] exIntent2 =
        (Except.ok exIntent2.id, [exIntent1] ++ [exIntent2]) :=
  ⟨(C8_submit_intent [] exIntentNoSig).1.mpr (by decide),
    (C8_submit_intent [] exIntentNoSig).2.1 (by decide),
    (C8_submit_intent [exIntent1] exIntent2).2.2 (by decide)⟩

/-! ## C5: the gas model -/

/-- C5: for every batch of n ≥ 1 intents the gas model returns
estimated_gas = n * 14000 and estimated_savings = n * 86000, hence
estimated_savings / (estimated_gas + estimated_savings)
= 86000 / 100000 and the built batch's savings_percent is 86. -/
theorem C5_gas_model (intents : List Intent) (h : 1 ≤ intents.length) :
    estimate_batch_gas intents =
      (intents.length * 14000, intents.length * 86000) ∧
    ((estimate_batch_gas intents).2 : ℚ) /
        (((estimate_batch_gas intents).1 : ℚ) +
          ((estimate_batch_gas intents).2 : ℚ)) = 86000 / 100000 ∧
    (∀ batchId createdAt phiBits : Nat,
      (build_batch batchId createdAt phiBits intents).savings_percent = 86) := by
  have hsub : intents.length * 100000 - intents.length * 14000 =
      intents.length * 86000 := by omega
  have hq : (intents.length : ℚ) ≠ 0 := by
    have : intents.length ≠ 0 := by omega
    exact_mod_cast this
  refine ⟨?_, ?_, ?_⟩
  · unfold estimate_batch_gas
    rw [hsub]
  · unfold estimate_batch_gas
    simp only [hsub]
    push_cast
    rw [div_eq_div_iff]
    · ring
    · intro hz
      apply hq
      nlinarith
    · norm_num
  · intro batchId createdAt phiBits
    unfold Batch.savings_percent
    have hgas : (build_batch batchId createdAt phiBits intents).estimated_gas =
        intents.length * 14000 := rfl
    have hsav : (build_batch batchId createdAt phiBits intents).estimated_savings =
        intents.length * 86000 := hsub
    rw [hgas, hsav, if_neg (by omega)]
    push_cast
    field_simp
    ring

/-- C5 witness: the gas model at a concrete two-intent batch. -/
theorem C5_gas_model_witness :
    1 ≤ [exIntent1, exIntent2].length ∧
      (build_batch 1 2 0 [exIntent1, exIntent2]).savings_percent = 86 :=
  ⟨by decide, (C5_gas_model [exIntent1, exIntent2] (by decide)).2.2 1 2 0⟩

/-! ## C6: the metrics fold -/

/-- C6, counterexample: folding a result with processing_time_ms = 5
into the default metrics leaves avg_processing_time_ms at 0 instead of
updating it to the claimed running-mean value 0 + (5 - 0)/1 = 5. -/
theorem C6_claim_false :
    (update_metrics Metrics.default exBatch exResult).avg_processing_time_ms
      = 0 ∧
    ¬ ((update_metrics Metrics.default exBatch exResult).avg_processing_time_ms
        = Metrics.default.avg_processing_time_ms +
          ((exResult.processing_time_ms : ℚ) -
              Metrics.default.avg_processing_time_ms) /
            ((Metrics.default.total_batches + 1 : Nat) : ℚ)) := by
  refine ⟨rfl, ?_⟩
  intro heq
  rw [show (update_metrics Metrics.default exBatch exResult).avg_processing_time_ms
      = 0 from rfl] at heq
  norm_num [Metrics.default, exResult] at heq

/-- C6, amended: each folded BatchResult increments total_batches by 1,
total_intents by the batch's intent count and total_gas_saved by the
result's gas_saved, and updates exactly the four running means
avg_batch_size, avg_savings_percent, avg_williams_savings and
avg_phi_savings as mean + (x - mean)/n_batches; avg_blob_savings and
avg_processing_time_ms (and blob_batches) are left unchanged. -/
theorem C6_update_metrics (m : Metrics) (b : Batch) (r : BatchResult) :
    update_metrics m b r =
      { total_batches := m.total_batches + 1
        total_intents := m.total_intents + b.intents.length
        total_gas_saved := m.total_gas_saved + r.gas_saved
        avg_batch_size := m.avg_batch_size +
          ((b.intents.length : ℚ) - m.avg_batch_size) /
            ((m.total_batches + 1 : Nat) : ℚ)
        avg_savings_percent := m.avg_savings_percent +
          ((estimate_total_savings b.intents.length).2.2 -
              m.avg_savings_percent) / ((m.total_batches + 1 : Nat) : ℚ)
        avg_williams_savings := m.avg_williams_savings +
          ((estimate_total_savings b.intents.length).1 -
              m.avg_williams_savings) / ((m.total_batches + 1 : Nat) : ℚ)
        avg_phi_savings := m.avg_phi_savings +
          ((estimate_total_savings b.intents.length).2.1 -
              m.avg_phi_savings) / ((m.total_batches + 1 : Nat) : ℚ)
        avg_blob_savings := m.avg_blob_savings
        blob_batches := m.blob_batches
        avg_processing_time_ms := m.avg_processing_time_ms } := by
  have hn : ((m.total_batches + 1 : Nat) : ℚ) ≠ 0 := by
    exact_mod_cast Nat.succ_ne_zero m.total_batches
  unfold update_metrics
  simp only [Metrics.mk.injEq, true_and, and_true, and_self, eq_self_iff_true]
  refine ⟨?_, ?_, ?_, ?_⟩ <;>
  · field_simp
    ring

/-! ## Serialization roundtrip lemmas -/

theorem natLE_length (w x : Nat) : (natLE w x).length = w := by
  induction w generalizing x with
  | zero => rfl
  | succ w ih => simp [natLE, ih]

theorem bytesToNatLE_natLE (w x : Nat) :
    bytesToNatLE (natLE w x) = x % 256 ^ w := by
  induction w generalizing x with
  | zero => simp [natLE, bytesToNatLE, Nat.mod_one]
  | succ w ih =>
    simp only [natLE, bytesToNatLE, ih]
    have h1 : x % (256 * 256 ^ w) % 256 = x % 256 :=
      Nat.mod_mod_of_dvd x ⟨256 ^ w, rfl⟩
    have h2 : x % (256 * 256 ^ w) / 256 = x / 256 % 256 ^ w :=
      Nat.mod_mul_right_div_self x 256 (256 ^ w)
    have h3 := Nat.div_add_mod (x % (256 * 256 ^ w)) 256
    have hpow : (256 : Nat) ^ (w + 1) = 256 * 256 ^ w := by
      rw [pow_succ]
      ring
    rw [hpow]
    omega

theorem readBytes_append (bs r : List Nat) :
    readBytes bs.length (bs ++ r) = some (bs, r) := by
  induction bs with
  | nil => rfl
  | cons b t ih => simp [readBytes, ih]

theorem readBytes_len (w : Nat) (bs : List Nat) (h : bs.length = w)
    (r : List Nat) : readBytes w (bs ++ r) = some (bs, r) := by
  subst h
  exact readBytes_append bs r

theorem readNatLE_natLE (w x : Nat) (h : x < 256 ^ w) (r : List Nat) :
    readNatLE w (natLE w x ++ r) = some (x, r) := by
  unfold readNatLE
  rw [readBytes_len w (natLE w x) (natLE_length w x) r]
  show some (bytesToNatLE (natLE w x), r) = some (x, r)
  rw [bytesToNatLE_natLE, Nat.mod_eq_of_lt h]

theorem readLenBytes_serBytes (bs : List Nat) (h : bs.length < 2 ^ 64)
    (r : List Nat) : readLenBytes (serBytes bs ++ r) = some (bs, r) := by
  have h8 : bs.length < 256 ^ 8 := by
    have : (256 : Nat) ^ 8 = 2 ^ 64 := by norm_num
    omega
  unfold serBytes readLenBytes
  rw [List.append_assoc, readNatLE_natLE 8 bs.length h8 (bs ++ r)]
  exact readBytes_append bs r

theorem readBool_serBool (b : Bool) (r : List Nat) :
    readBool (serBool b ++ r) = some (b, r) := by
  cases b <;> rfl

theorem readOptU256_serOptU256 (o : Option Nat) (h : o.getD 0 < 2 ^ 256)
    (r : List Nat) : readOptU256 (serOptU256 o ++ r) = some (o, r) := by
  cases o with
  | none => rfl
  | some x =>
    have h32 : x < 256 ^ 32 := by
      have : (256 : Nat) ^ 32 = 2 ^ 256 := by norm_num
      simp only [Option.getD] at h
      omega
    show readOptU256 (1 :: (natLE 32 x ++ r)) = some (some x, r)
    simp only [readOptU256, readNatLE_natLE 32 x h32 r, if_neg one_ne_zero,
      if_pos rfl, if_true]

theorem parseIntent_serializeIntent (i : Intent) (h : i.wf) (r : List Nat) :
    parseIntent (serializeIntent i ++ r) = some (i, r) := by
  obtain ⟨h1, h2, h3, h4, h5, h6, h7, h8⟩ := h
  have h4' : i.amount < 256 ^ 32 := by
    have : (256 : Nat) ^ 32 = 2 ^ 256 := by norm_num
    omega
  have h5' : i.nonce < 256 ^ 8 := by
    have : (256 : Nat) ^ 8 = 2 ^ 64 := by norm_num
    omega
  have h7' : i.timestamp < 256 ^ 8 := by
    have : (256 : Nat) ^ 8 = 2 ^ 64 := by norm_num
    omega
  simp only [serializeIntent, parseIntent, List.append_assoc,
    readLenBytes_serBytes i.id h1,
    readBytes_len 20 i.from' h2,
    readBytes_len 20 i.to' h3,
    readNatLE_natLE 32 i.amount h4',
    readBool_serBool i.priority,
    readNatLE_natLE 8 i.nonce h5',
    readLenBytes_serBytes i.signature h6,
    readNatLE_natLE 8 i.timestamp h7',
    readOptU256_serOptU256 i.max_gas_price h8]

theorem parseIntents_ser :
    ∀ L : List Intent, (∀ i ∈ L, i.wf) →
      ∀ r, parseIntents L.length ((L.map serializeIntent).flatten ++ r) =
        some (L, r) := by
  intro L
  induction L with
  | nil => intro _ r; rfl
  | cons i t ih =>
    intro hL r
    have hi : i.wf := hL i (List.mem_cons_self i t)
    have ht : ∀ j ∈ t, j.wf := fun j hj => hL j (List.mem_cons_of_mem i hj)
    simp only [List.map_cons, List.flatten_cons, List.length_cons,
      List.append_assoc, parseIntents, parseIntent_serializeIntent i hi,
      ih ht]

theorem parseBatch_serializeBatch (b : Batch) (h : b.wf) (r : List Nat) :
    parseBatch (serializeBatch b ++ r) = some (b, r) := by
  obtain ⟨h1, h2, h3, h4, h5, h6, h7, h8⟩ := h
  have e64 : (256 : Nat) ^ 8 = 2 ^ 64 := by norm_num
  have e256 : (256 : Nat) ^ 32 = 2 ^ 256 := by norm_num
  have h1' : b.id < 256 ^ 8 := by omega
  have h2' : b.intents.length < 256 ^ 8 := by omega
  have h4' : b.chunk_size < 256 ^ 8 := by omega
  have h5' : b.phi_score < 256 ^ 8 := by omega
  have h6' : b.estimated_gas < 256 ^ 32 := by omega
  have h7' : b.estimated_savings < 256 ^ 32 := by omega
  have h8' : b.created_at < 256 ^ 8 := by omega
  simp only [serializeBatch, parseBatch, List.append_assoc,
    readNatLE_natLE 8 b.id h1',
    readNatLE_natLE 8 b.intents.length h2',
    parseIntents_ser b.intents h3,
    readNatLE_natLE 8 b.chunk_size h4',
    readNatLE_natLE 8 b.phi_score h5',
    readNatLE_natLE 32 b.estimated_gas h6',
    readNatLE_natLE 32 b.estimated_savings h7',
    readNatLE_natLE 8 b.created_at h8']

/-! ## Blob segmentation lemmas -/

theorem flatten_padded_chunks {cs : Nat} (hcs : 0 < cs) :
    ∀ fuel (l : List Nat), l.length ≤ fuel →
      ∃ k, ((chunkAux cs fuel l).map (padTo cs)).flatten =
        l ++ List.replicate k 0 := by
  intro fuel
  induction fuel with
  | zero =>
    intro l h
    refine ⟨0, ?_⟩
    have hl : l = [] := List.eq_nil_of_length_eq_zero (by omega)
    subst hl
    simp [chunkAux]
  | succ f ih =>
    intro l h
    cases l with
    | nil => exact ⟨0, by simp [chunkAux]⟩
    | cons a t =>
      by_cases hle : (a :: t).length ≤ cs
      · refine ⟨cs - (a :: t).length, ?_⟩
        have hdrop : (a :: t).drop cs = [] := List.drop_eq_nil_of_le hle
        simp only [chunkAux, hdrop, chunkAux_nil, List.map_cons, List.map_nil,
          List.flatten_cons, List.flatten_nil, List.append_nil, padTo,
          List.take_of_length_le hle]
      · push_neg at hle
        obtain ⟨k, hk⟩ := ih ((a :: t).drop cs)
          (by simp only [List.length_drop, List.length_cons] at h ⊢; omega)
        refine ⟨k, ?_⟩
        simp only [chunkAux, List.map_cons, List.flatten_cons, hk]
        have htake : (List.take cs (a :: t)).length = cs := by
          rw [List.length_take]
          simp only [List.length_cons] at hle ⊢
          omega
        unfold padTo
        rw [htake, Nat.sub_self, List.replicate_zero, List.append_nil,
          ← List.append_assoc, List.take_append_drop]

theorem chunkAux_length_blob :
    ∀ fuel (l : List Nat), l.length ≤ fuel →
      (chunkAux BLOB_SIZE fuel l).length =
        (l.length + BLOB_SIZE - 1) / BLOB_SIZE := by
  intro fuel
  induction fuel with
  | zero =>
    intro l h
    have hl : l = [] := List.eq_nil_of_length_eq_zero (by omega)
    subst hl
    simp [chunkAux, BLOB_SIZE]
  | succ f ih =>
    intro l h
    cases l with
    | nil => simp [chunkAux, BLOB_SIZE]
    | cons a t =>
      simp only [chunkAux, List.length_cons]
      rw [ih _ (by simp only [List.length_drop, List.length_cons] at h ⊢
                   simp only [BLOB_SIZE]
                   omega)]
      simp only [List.length_drop, List.length_cons, BLOB_SIZE]
      omega

theorem encode_batch_ok (b : Batch)
    (hfit : (serializeBatch b).length ≤ MAX_BLOBS_PER_TX * BLOB_SIZE) :
    encode_batch b =
      Except.ok ((chunkList BLOB_SIZE (serializeBatch b)).map
        (padTo BLOB_SIZE)) := by
  simp only [encode_batch]
  rw [if_neg]
  simp only [MAX_BLOBS_PER_TX, BLOB_SIZE] at hfit ⊢
  omega

/-! ## C7: segment count and the BatchTooLarge condition -/

/-- C7: blob encoding fails with BatchTooLarge exactly when the
serialized batch needs more than 6 segments of 131072 bytes each
(that is, more than 786432 bytes); otherwise it produces exactly
ceil(serialized_length / 131072) segments and no error. -/
theorem C7_encode_batch (b : Batch) :
    ((∃ msg, encode_batch b = Except.error (FisherError.batchTooLarge msg)) ↔
      786432 < (serializeBatch b).length) ∧
    ((encode_batch b).toOption.map List.length =
      if 786432 < (serializeBatch b).length then none
      else some (((serializeBatch b).length + 131071) / 131072)) := by
  constructor
  · constructor
    · rintro ⟨msg, hmsg⟩
      by_contra hle
      push_neg at hle
      rw [encode_batch_ok b
        (by simp only [MAX_BLOBS_PER_TX, BLOB_SIZE]; omega)] at hmsg
      exact Except.noConfusion hmsg
    · intro hgt
      refine ⟨"Batch requires " ++
        toString (((serializeBatch b).length + BLOB_SIZE - 1) / BLOB_SIZE) ++
        " blobs, max is " ++ toString MAX_BLOBS_PER_TX, ?_⟩
      simp only [encode_batch]
      rw [if_pos (by simp only [MAX_BLOBS_PER_TX, BLOB_SIZE]; omega)]
  · by_cases hgt : 786432 < (serializeBatch b).length
    · rw [if_pos hgt]
      simp only [encode_batch]
      rw [if_pos (by simp only [MAX_BLOBS_PER_TX, BLOB_SIZE]; omega)]
      rfl
    · push_neg at hgt
      rw [if_neg (by omega)]
      rw [encode_batch_ok b (by simp only [MAX_BLOBS_PER_TX, BLOB_SIZE]; omega)]
      show some ((chunkList BLOB_SIZE (serializeBatch b)).map
        (padTo BLOB_SIZE)).length = _
      rw [List.length_map]
      unfold chunkList
      rw [chunkAux_length_blob _ _ (le_refl _)]
      simp only [BLOB_SIZE, Option.some.injEq]
      omega

/-! ## C4: the blob round trip -/

/-- C4: for every well-formed Batch whose blob encoding succeeds,
decoding the produced segments returns a Batch with the same id, the
same number of intents and the same intent ids in the same order,
even though the final segment is zero-padded to the fixed segment
size. -/
theorem C4_blob_roundtrip (b : Batch) (hwf : b.wf) (segs : List (List Nat))
    (henc : encode_batch b = Except.ok segs) :
    ∃ b', decode_batch segs = some b' ∧ b'.id = b.id ∧
      b'.intents.length = b.intents.length ∧
      b'.intents.map Intent.id = b.intents.map Intent.id := by
  have hcond :
      ¬ ((serializeBatch b).length + BLOB_SIZE - 1) / BLOB_SIZE >
        MAX_BLOBS_PER_TX := by
    intro hc
    simp only [encode_batch, if_pos hc] at henc
    exact Except.noConfusion henc
  have hsegs : segs =
      (chunkList BLOB_SIZE (serializeBatch b)).map (padTo BLOB_SIZE) := by
    simp only [encode_batch, if_neg hcond] at henc
    exact (Except.ok.inj henc).symm
  subst hsegs
  obtain ⟨k, hk⟩ := @flatten_padded_chunks BLOB_SIZE (by decide)
    (serializeBatch b).length (serializeBatch b) (le_refl _)
  unfold decode_batch chunkList
  rw [hk, parseBatch_serializeBatch b hwf (List.replicate k 0)]
  exact ⟨b, rfl, rfl, rfl, rfl⟩

set_option maxRecDepth 100000 in
/-- C4 witness: the round trip at a concrete two-intent batch whose
encoding succeeds. -/
theorem C4_blob_roundtrip_witness :
    Batch.wf exBatch ∧
      encode_batch exBatch = Except.ok (exPlan exBatch) ∧
      ∃ b', decode_batch (exPlan exBatch) = some b' ∧ b'.id = exBatch.id ∧
        b'.intents.length = exBatch.intents.length ∧
        b'.intents.map Intent.id = exBatch.intents.map Intent.id :=
  ⟨by decide, rfl, C4_blob_roundtrip exBatch (by decide) (exPlan exBatch) rfl⟩
